import Mathlib

/-!
Shallow embedding of the libxb archive/compression code.

Byte buffers are modelled as `List Nat` (each element a byte value),
streams as a buffer with a cursor, and Python exceptions as an explicit
error type threaded through `Except`.  Every definition is translated
from the repository sources:

* `src/src/libxb/streams.py` — `BufferStream` (read / write / seek / eof);
* `src/compress.py`         — `ClapHanzLZS`, `ClapHanzHuffman`;
* `src/src/libxb/archive.py` — `XBArchive` (string-table hash, FST
  packing, `__write`, `close`);
* `src/util.py`, `src/utility.py` — the two alignment helpers.
-/

namespace LibXB

/-- Python exception classes that the embedded code can raise or let escape
(`exception.py` hierarchy plus the built-ins the code touches). -/
inductive PyExc where
  | argumentError
  | decompressionError
  | archiveError
  | eofError
  | indexError
  | attributeError
  | overflowError
  | notImplementedError
  | assertionError
  | operationError
  deriving DecidableEq, Repr

/-- Stream byte order: `"<"` (little endian) or `">"` (big endian). -/
inductive Endian where
  | little
  | big
  deriving DecidableEq, Repr

/-- Value of a little-endian byte string, as in `int.from_bytes`. -/
def fromBytesLE : List Nat → Nat
  | [] => 0
  | b :: rest => b + 256 * fromBytesLE rest

/-- Python `int.from_bytes(data, byteorder)`. -/
def fromBytes : Endian → List Nat → Nat
  | .little, l => fromBytesLE l
  | .big, l => fromBytesLE l.reverse

/-- Little-endian digits of `v`, `size` bytes long (value taken mod 256^size;
the overflow check of `int.to_bytes` is performed by the callers below). -/
def toBytesLE : Nat → Nat → List Nat
  | 0, _ => []
  | size + 1, v => v % 256 :: toBytesLE size (v / 256)

/-- Python `int.to_bytes(value, length, byteorder)` (unsigned). -/
def toBytes : Endian → Nat → Nat → List Nat
  | .little, size, v => toBytesLE size v
  | .big, size, v => (toBytesLE size v).reverse

/-- In-memory byte stream: `BufferStream` from `src/src/libxb/streams.py`.
`buffer` is the `bytearray`, `pos` the `_position` cursor. -/
structure BufferStream where
  endian : Endian
  buffer : List Nat
  pos : Nat
  deriving DecidableEq, Repr

namespace BufferStream

/-- Stream length (`BufferStream.length`, streams.py line 791). -/
def length (s : BufferStream) : Nat := s.buffer.length

/-- End-of-buffer test (`BufferStream.eof`, streams.py line 715):
`self._position >= self.length()`. -/
def eof (s : BufferStream) : Bool := s.length ≤ s.pos

/-- Byte read (`BufferStream.read`, streams.py line 664).  Raises `EOFError`
when the cursor already sits at or past the end; otherwise returns up to
`size` bytes, clamped at the end of the buffer. -/
def read (s : BufferStream) (size : Nat) : Except PyExc (List Nat × BufferStream) :=
  if s.length ≤ s.pos then .error .eofError
  else if s.length ≤ s.pos + size then
    .ok (s.buffer.drop s.pos, { s with pos := s.length })
  else
    .ok ((s.buffer.drop s.pos).take size, { s with pos := s.pos + size })

/-- Byte write (`BufferStream.write`, streams.py lines 697-712):
`self._buffer[self._position : self._position + len(data)] = data`, then the
cursor advances by `len(data)`.  Slice assignment with a slice of the same
length replaces in place and extends past the end. -/
def write (s : BufferStream) (data : List Nat) : BufferStream :=
  { s with
    buffer := s.buffer.take s.pos ++ data ++ s.buffer.drop (s.pos + data.length),
    pos := s.pos + data.length }

/-- Stream.read_u8: one byte via `read(1)` then `int.from_bytes`. -/
def readU8 (s : BufferStream) : Except PyExc (Nat × BufferStream) :=
  (s.read 1).map fun (d, s') => (fromBytes s.endian d, s')

/-- Stream.read_u16: two bytes via `read(2)` then `int.from_bytes`. -/
def readU16 (s : BufferStream) : Except PyExc (Nat × BufferStream) :=
  (s.read 2).map fun (d, s') => (fromBytes s.endian d, s')

/-- Stream.read_u32: four bytes via `read(4)` then `int.from_bytes`. -/
def readU32 (s : BufferStream) : Except PyExc (Nat × BufferStream) :=
  (s.read 4).map fun (d, s') => (fromBytes s.endian d, s')

/-- Stream.write_u8: `int.to_bytes(value, 1)` (OverflowError when the value
does not fit) then `write`. -/
def writeU8 (s : BufferStream) (v : Nat) : Except PyExc BufferStream :=
  if v < 256 then .ok (s.write (toBytes s.endian 1 v)) else .error .overflowError

/-- Stream.write_u32: `int.to_bytes(value, 4)` (OverflowError when the value
does not fit) then `write`. -/
def writeU32 (s : BufferStream) (v : Nat) : Except PyExc BufferStream :=
  if v < 2 ^ 32 then .ok (s.write (toBytes s.endian 4 v)) else .error .overflowError

end BufferStream

/-! ## ClapHanzLZS (src/compress.py lines 42-154) -/

namespace ClapHanzLZS

/-- Compression loop of `ClapHanzLZS.compress` (compress.py lines 68-73):
while the input is not exhausted, read a chunk of up to 64 bytes and emit
`(len(chunk) - 1) << 2 | LITERAL` followed by the chunk.  `fuel` bounds the
number of iterations; `none` means the fuel ran out (shown impossible below
for fuel larger than the remaining input). -/
def compressGo : Nat → BufferStream → BufferStream → Option (Except PyExc BufferStream)
  | 0, _, _ => none
  | fuel + 1, strm, output =>
    if strm.eof then some (.ok output)
    else
      match strm.read 64 with
      | .error e => some (.error e)
      | .ok (chunk, strm) =>
        match output.writeU8 ((chunk.length - 1) <<< 2 ||| 0) with
        | .error e => some (.error e)
        | .ok output => compressGo fuel strm (output.write chunk)

/-- `ClapHanzLZS.compress` (compress.py lines 55-82): run the chunk loop into
a fresh `BufferStream`, then seek back to position 0 and write the header
(`decomp size`, `compress size`) with `write_u32`, and finally seek to 0.
Because `BufferStream.write` replaces bytes in place, the two header words
land on top of the first 8 bytes of the chunk stream. -/
def compress (strm : BufferStream) : Except PyExc BufferStream :=
  match compressGo (strm.length + 1) strm ⟨strm.endian, [], 0⟩ with
  | none => .error .decompressionError
  | some (.error e) => .error e
  | some (.ok output) =>
    let output : BufferStream := { output with pos := 0 }
    (output.writeU32 strm.length).bind fun output =>
      (output.writeU32 output.length).bind fun output =>
        .ok { output with pos := 0 }

/-- Literal-copy loop of `ClapHanzLZS.decompress` (compress.py lines 119-121):
`copy_len` times, read one byte from the stream and store it at `out_idx`.
Python raises `IndexError` once `out_idx` reaches the end of the
preallocated output.  Returns the advanced stream, output and `out_idx`. -/
def litCopy : Nat → BufferStream → List Nat → Nat →
    Except PyExc (BufferStream × List Nat × Nat)
  | 0, strm, output, outIdx => .ok (strm, output, outIdx)
  | n + 1, strm, output, outIdx =>
    (strm.readU8).bind fun (b, strm) =>
      if outIdx < output.length then
        litCopy n strm (output.set outIdx b) (outIdx + 1)
      else .error .indexError

/-- Python list indexing `output[i]` for `i` possibly negative: a negative
index counts from the end of the list; out of range raises `IndexError`. -/
def pyGet (output : List Nat) (i : Int) : Except PyExc Nat :=
  if 0 ≤ i then
    match output[i.toNat]? with
    | some b => .ok b
    | none => .error .indexError
  else
    match output[(i + output.length).toNat]? with
    | some b =>
      if 0 ≤ i + output.length then .ok b else .error .indexError
    | none => .error .indexError

/-- Back-reference copy loop of `ClapHanzLZS.decompress` (compress.py lines
144-148): `run_len` times, copy `output[run_idx]` to `output[out_idx]` one
byte at a time, incrementing both cursors.  `run_idx` is an arbitrary Python
int (it can be negative, which indexes from the end of the buffer). -/
def runCopy : Nat → List Nat → Nat → Int → Except PyExc (List Nat × Nat)
  | 0, output, outIdx, _ => .ok (output, outIdx)
  | n + 1, output, outIdx, runIdx =>
    (pyGet output runIdx).bind fun b =>
      if outIdx < output.length then
        runCopy n (output.set outIdx b) (outIdx + 1) (runIdx + 1)
      else .error .indexError

/-- Decode loop of `ClapHanzLZS.decompress` (compress.py lines 112-148):
while `out_idx < decomp_size`, read a control byte and perform a literal
copy (low two bits `00`), a short run (low bit set: one extra byte,
`run_len = ((value & 0b1110) >> 1) + 3`, `run_offset = value >> 4`) or a
long run (two extra bytes, `run_len = ((value & 0b111111111100) >> 2) + 3`,
`run_offset = value >> 12`).  `none` means the fuel ran out. -/
def decodeGo : Nat → BufferStream → List Nat → Nat → Nat →
    Option (Except PyExc (BufferStream × List Nat))
  | 0, _, _, _, _ => none
  | fuel + 1, strm, output, outIdx, decompSize =>
    if outIdx < decompSize then
      match strm.readU8 with
      | .error e => some (.error e)
      | .ok (code, strm) =>
        if code &&& 3 = 0 then
          match litCopy ((code >>> 2) + 1) strm output outIdx with
          | .error e => some (.error e)
          | .ok (strm, output, outIdx) => decodeGo fuel strm output outIdx decompSize
        else if code &&& 1 ≠ 0 then
          match strm.readU8 with
          | .error e => some (.error e)
          | .ok (b0, strm) =>
            let value := b0 <<< 8 ||| code
            let runLen := ((value &&& 0b1110) >>> 1) + 3
            let runOffset := value >>> 4
            match runCopy runLen output outIdx ((outIdx : Int) - runOffset) with
            | .error e => some (.error e)
            | .ok (output, outIdx) => decodeGo fuel strm output outIdx decompSize
        else
          match strm.readU8 with
          | .error e => some (.error e)
          | .ok (b0, strm) =>
            match strm.readU8 with
            | .error e => some (.error e)
            | .ok (b1, strm) =>
              let value := b1 <<< 16 ||| b0 <<< 8 ||| code
              let runLen := ((value &&& 0b111111111100) >>> 2) + 3
              let runOffset := value >>> 12
              match runCopy runLen output outIdx ((outIdx : Int) - runOffset) with
              | .error e => some (.error e)
              | .ok (output, outIdx) => decodeGo fuel strm output outIdx decompSize
    else some (.ok (strm, output))

/-- `ClapHanzLZS.decompress` (compress.py lines 84-154): read the two header
words, validate them, run the decode loop over a zero-filled output of the
declared size, and wrap `IndexError` / `EOFError` from the loop into
`DecompressionError`. -/
def decompress (strm : BufferStream) : Except PyExc BufferStream :=
  (strm.readU32).bind fun (decompSize, strm) =>
    (strm.readU32).bind fun (compressSize, strm) =>
      if decompSize = 0 then .error .argumentError
      else if compressSize = 0 then .error .decompressionError
      else
        match decodeGo (decompSize + 1) strm (List.replicate decompSize 0) 0 decompSize with
        | none => .error .decompressionError
        | some (.error .indexError) => .error .decompressionError
        | some (.error .eofError) => .error .decompressionError
        | some (.error e) => .error e
        | some (.ok (strm', output)) => .ok ⟨strm'.endian, output, 0⟩

end ClapHanzLZS

/-! ## ClapHanzHuffman (src/compress.py lines 157-325) -/

namespace ClapHanzHuffman

/-- Flat Huffman decode-table entry (`ClapHanzHuffman.Symbol`). -/
structure Symbol where
  length : Nat
  symbol : Nat
  deriving DecidableEq, Repr

/-- Index construction of `_rebuild_huffman_table` (compress.py lines
287-290): `length` times, `index = index << 1 | (code_bits & 1)` and
`code_bits >>= 1` (bit-reversal of the low `length` bits of the code). -/
def buildIndex : Nat → Nat → Nat → Nat
  | 0, _, index => index
  | n + 1, codeBits, index => buildIndex n (codeBits >>> 1) (index <<< 1 ||| (codeBits &&& 1))

/-- Table-filling loop of `_rebuild_huffman_table` (compress.py lines
295-297): while `index < len(table)`, store the symbol and step by
`1 << length`.  `fuel` bounds the iterations; the step is at least 2 for
every code length `length ≥ 1`, so `table.length + 1` iterations always
finish the loop. -/
def fillTable : Nat → List (Option Symbol) → Nat → Nat → Symbol → List (Option Symbol)
  | 0, table, _, _, _ => table
  | fuel + 1, table, index, step, sym =>
    if index < table.length then
      fillTable fuel (table.set index (some sym)) (index + step) step sym
    else table

/-- Per-length code loop of `_rebuild_huffman_table` (compress.py lines
284-301): `code_num` times, build the bit-reversed index, read the symbol
byte, fill the table, and advance `code` when `length <= MAX_DEPTH`. -/
def readCodes : Nat → BufferStream → List (Option Symbol) → Nat → Nat →
    Except PyExc (BufferStream × List (Option Symbol) × Nat)
  | 0, strm, table, code, _ => .ok (strm, table, code)
  | n + 1, strm, table, code, len =>
    let index := buildIndex len code 0
    (strm.readU8).bind fun (symbol, strm) =>
      let table := fillTable (table.length + 1) table index (1 <<< len) ⟨len, symbol⟩
      let code := if len ≤ 10 then code + 1 else code
      readCodes n strm table code len

/-- Outer length loop of `_rebuild_huffman_table` (compress.py lines
281-304): for `length = 1 .. max_length`, read the code count for that
length, process the codes, then `length += 1` and `code <<= 1`.  The
remaining-iterations counter mirrors `max_length - length + 1`. -/
def lengthLoop : Nat → BufferStream → List (Option Symbol) → Nat → Nat →
    Except PyExc (BufferStream × List (Option Symbol))
  | 0, strm, table, _, _ => .ok (strm, table)
  | rem + 1, strm, table, code, len =>
    (strm.readU8).bind fun (codeNum, strm) =>
      (readCodes codeNum strm table code len).bind fun (strm, table, code) =>
        lengthLoop rem strm table (code <<< 1) (len + 1)

/-- `ClapHanzHuffman._rebuild_huffman_table` (compress.py lines 273-325):
start from 1024 unpopulated slots, read `max_length` (zero is malformed),
run the length loop (wrapping `IndexError`/`EOFError` into
`DecompressionError`), and realign the stream to a 2-byte boundary. -/
def rebuildHuffmanTable (strm : BufferStream) :
    Except PyExc (BufferStream × List (Option Symbol)) :=
  let table : List (Option Symbol) := List.replicate 1024 none
  (strm.readU8).bind fun (maxLength, strm) =>
    if maxLength = 0 then .error .decompressionError
    else
      match lengthLoop maxLength strm table 0 1 with
      | .error .indexError => .error .decompressionError
      | .error .eofError => .error .decompressionError
      | .error e => .error e
      | .ok (strm, table) =>
        let strm := if strm.pos % 2 ≠ 0 then { strm with pos := strm.pos + 1 } else strm
        .ok (strm, table)

/-- Decode loop of `ClapHanzHuffman.decompress` (compress.py lines 226-248):
keep at least 10 bits buffered, look up the low 10 bits of the bit buffer in
the table, then either emit the symbol (code length at most 10) or consume
10 bits and emit a raw byte.  A lookup that lands on a never-populated slot
evaluates `entry.length` on `None`, which raises `AttributeError`.
`bit_num` never becomes negative in any reachable state (each subtraction is
preceded by a refill guaranteeing enough buffered bits), so it is carried as
a natural number. -/
def decodeGo : Nat → BufferStream → List (Option Symbol) → List Nat → Nat → Nat → Nat →
    Option (Except PyExc (BufferStream × List Nat))
  | 0, _, _, _, _, _, _ => none
  | fuel + 1, strm, table, output, bitNum, bitStrm, decompSize =>
    if output.length < decompSize then
      let refill : Except PyExc (BufferStream × Nat × Nat) :=
        if bitNum < 10 then
          (strm.readU16).map fun (v, strm) => (strm, bitNum + 16, bitStrm ||| v <<< bitNum)
        else .ok (strm, bitNum, bitStrm)
      let step : Except PyExc (BufferStream × List Nat × Nat × Nat) :=
        refill.bind fun (strm, bitNum, bitStrm) =>
          let index := bitStrm &&& 1023
          match table.getD index none with
          | none => .error .attributeError
          | some entry =>
            if entry.length ≤ 10 then
              if entry.symbol < 256 then
                .ok (strm, output ++ [entry.symbol], bitNum - entry.length,
                  bitStrm >>> entry.length)
              else .error .overflowError
            else
              let bitStrm := bitStrm >>> 10
              let bitNum := bitNum - 10
              let refill2 : Except PyExc (BufferStream × Nat × Nat) :=
                if bitNum < 16 then
                  (strm.readU16).map fun (v, strm) =>
                    (strm, bitNum + 16, bitStrm ||| v <<< bitNum)
                else .ok (strm, bitNum, bitStrm)
              refill2.map fun (strm, bitNum, bitStrm) =>
                (strm, output ++ [bitStrm &&& 0xFF], bitNum - 8, bitStrm >>> 8)
      match step with
      | .error e => some (.error e)
      | .ok (strm, output, bitNum, bitStrm) =>
        decodeGo fuel strm table output bitNum bitStrm decompSize
    else some (.ok (strm, output))

/-- `ClapHanzHuffman.decompress` (compress.py lines 220-253): read and
validate the header, rebuild the decode table (any `IndexError`/`EOFError`
becomes `DecompressionError`), then run the decode loop; `IndexError` and
`EOFError` from the loop are wrapped into `DecompressionError`, while any
other exception (notably the `AttributeError` from an unpopulated table
slot) escapes as is. -/
def decompress (strm : BufferStream) : Except PyExc BufferStream :=
  (strm.readU32).bind fun (decompSize, strm) =>
    (strm.readU32).bind fun (compressSize, strm) =>
      if decompSize = 0 then .error .argumentError
      else if compressSize = 0 then .error .decompressionError
      else
        match rebuildHuffmanTable strm with
        | .error .indexError => .error .decompressionError
        | .error .eofError => .error .decompressionError
        | .error e => .error e
        | .ok (strm, table) =>
          match decodeGo (decompSize + 1) strm table [] 0 0 decompSize with
          | none => .error .decompressionError
          | some (.error .indexError) => .error .decompressionError
          | some (.error .eofError) => .error .decompressionError
          | some (.error e) => .error e
          | some (.ok (strm', output)) => .ok ⟨strm'.endian, output, 0⟩

/-- `ClapHanzHuffman.compress` (compress.py lines 187-198) is declared but
unimplemented: it raises `NotImplementedError` unconditionally. -/
def compress (_strm : BufferStream) : Except PyExc BufferStream :=
  .error .notImplementedError

end ClapHanzHuffman

/-! ## Alignment helpers (src/util.py and src/utility.py) -/

/-- Integer branch of the module-level `align` in `src/util.py` (lines 4-24):
`remain = alignment - (thing % alignment); return thing + remain`. -/
def utilAlign (thing alignment : Nat) : Nat :=
  thing + (alignment - thing % alignment)

/-- Integer branch of `Util.align` in `src/utility.py` (lines 5-32):
`remain = (alignment - (thing % alignment)) % alignment; return thing + remain`. -/
def utilityUtilAlign (thing alignment : Nat) : Nat :=
  thing + (alignment - thing % alignment) % alignment

/-- Byte-buffer branch of `Util.align` in `src/utility.py`: append
`(alignment - len % alignment) % alignment` zero bytes (the in-place
`bytearray` extension). -/
def utilityUtilAlignBytes (thing : List Nat) (alignment : Nat) : List Nat :=
  thing ++ List.replicate ((alignment - thing.length % alignment) % alignment) 0

/-! ## XBArchive string-table hash and FST packing (src/src/libxb/archive.py) -/

/-- Hash step of `XBArchive.StringTableEntry.hash` (archive.py line 98):
`hash = ((hash & 0x7F) << 1 | (hash & 0x80) >> 7) ^ ord(c)`. -/
def hashStep (h c : Nat) : Nat :=
  (((h &&& 0x7F) <<< 1) ||| ((h &&& 0x80) >>> 7)) ^^^ c

/-- `XBArchive.StringTableEntry.hash` (archive.py lines 89-100): fold the
rotate-and-xor step over the code points of the path, then mask to 8 bits. -/
def stringTableHash (value : List Nat) : Nat :=
  (value.foldl hashStep 0) &&& 0xFF

/-- FST word packing from `XBArchive.__write` (archive.py line 459):
`cmpoff = compression << 28 | (fst_offset // 4)`. -/
def packCmpOff (tag off4 : Nat) : Nat :=
  tag <<< 28 ||| off4

/-- Compression tag recovered by `XBArchive.__read` (archive.py line 313):
`compression = cmpoff >> 28`. -/
def unpackTag (cmpoff : Nat) : Nat :=
  cmpoff >>> 28

/-- File offset recovered by `XBArchive.__read` (archive.py lines 314-317):
`offset = cmpoff & 0xFFFFFFF` then `offset *= 4`. -/
def unpackOffset (cmpoff : Nat) : Nat :=
  (cmpoff &&& 0xFFFFFFF) * 4

/-! ## XBArchive serialization and close (src/src/libxb/archive.py) -/

/-- `XBCompression` (archive.py lines 19-27). -/
inductive XBCompression where
  | DEFLATE
  | HUFFMAN
  | LZS
  | NONE
  deriving DecidableEq, Repr

/-- Integer value of the `IntEnum` member. -/
def XBCompression.val : XBCompression → Nat
  | .DEFLATE => 0
  | .HUFFMAN => 1
  | .LZS => 2
  | .NONE => 3

/-- `XBFile` (archive.py lines 30-51): the archive path is kept as the list
of Unicode code points of the string, the data as bytes.  The data buffer is
modelled as a Python `bytearray` (which is what the serializer itself
produces), so that `Util.align` extends it in place. -/
structure XBFile where
  path : List Nat
  data : List Nat
  compression : XBCompression
  deriving DecidableEq, Repr

/-- UTF-8 encoding of one code point, as performed by `str.encode("utf-8")`
inside `Stream.write_string`. -/
def utf8EncodeChar (c : Nat) : List Nat :=
  if c < 0x80 then [c]
  else if c < 0x800 then
    [0xC0 ||| c >>> 6, 0x80 ||| (c &&& 0x3F)]
  else if c < 0x10000 then
    [0xE0 ||| c >>> 12, 0x80 ||| ((c >>> 6) &&& 0x3F), 0x80 ||| (c &&& 0x3F)]
  else
    [0xF0 ||| c >>> 18, 0x80 ||| ((c >>> 12) &&& 0x3F),
     0x80 ||| ((c >>> 6) &&& 0x3F), 0x80 ||| (c &&& 0x3F)]

/-- Bytes produced for one string-table record by `XBArchive.__write`
(archive.py lines 437-442): `write_u8(len(entry.value))` (an `OverflowError`
when the path has more than 255 characters), `write_u8(entry.hash())`, then
the null-terminated UTF-8 path via `write_string`. -/
def strtabEntryBytes (f : XBFile) : Except PyExc (List Nat) :=
  if f.path.length < 256 then
    .ok ([f.path.length, stringTableHash f.path] ++ (f.path.map utf8EncodeChar).flatten ++ [0])
  else .error .overflowError

/-- Concatenated raw string table, written file by file into the fresh
`strtab_strm` buffer (archive.py lines 436-442). -/
def buildStrtabRaw (files : List XBFile) : Except PyExc (List Nat) :=
  files.foldlM (fun acc f => (strtabEntryBytes f).map (acc ++ ·)) []

/-- Final string-table section of `XBArchive.__write` (archive.py lines
444-449): LZS-compress the raw table from position 0, take the resulting
buffer, and pad it to a 4-byte boundary in place. -/
def buildStrtab (e : Endian) (files : List XBFile) : Except PyExc (List Nat) :=
  (buildStrtabRaw files).bind fun raw =>
    (ClapHanzLZS.compress ⟨e, raw, 0⟩).map fun comp =>
      utilityUtilAlignBytes comp.buffer 4

/-- Per-file compressed payload of `XBArchive.__write` (archive.py lines
475-487): `NONE` passes the data through, `LZS` runs `ClapHanzLZS.compress`
over a fresh stream of the data, `HUFFMAN` raises `NotImplementedError`,
and `DEFLATE` LZS-compresses and then fails in `ClapHanzHuffman.compress`. -/
def xbCompressData (e : Endian) (f : XBFile) : Except PyExc (List Nat) :=
  match f.compression with
  | .NONE => .ok f.data
  | .LZS => (ClapHanzLZS.compress ⟨e, f.data, 0⟩).map (·.buffer)
  | .HUFFMAN => .error .notImplementedError
  | .DEFLATE =>
    (ClapHanzLZS.compress ⟨e, f.data, 0⟩).bind fun lz =>
      (ClapHanzHuffman.compress lz).map (·.buffer)

/-- The 4-byte-aligned payload actually appended to the file-data section
for one file (archive.py lines 489-491). -/
def xbCompressAligned (e : Endian) (f : XBFile) : Except PyExc (List Nat) :=
  (xbCompressData e f).map (utilityUtilAlignBytes · 4)

/-- Bytes of `write_u32(v)` into a freshly built stream, including the
`int.to_bytes` overflow check. -/
def u32Bytes (e : Endian) (v : Nat) : Except PyExc (List Nat) :=
  if v < 2 ^ 32 then .ok (toBytes e 4 v) else .error .overflowError

/-- File-data/FST loop of `XBArchive.__write` (archive.py lines 470-508):
for each file, compress and align the payload, append it to the file-data
buffer, raise `ArchiveError` when
`(fst_offset // 4) >= 0xFFFFFFF - len(compress_data)` (a Python int
comparison, hence over `Int`), write the FST record (decompressed size,
then — after the 4-byte-alignment assertion on `fst_offset` — the packed
compression/offset word), and advance the running offset by the aligned
payload size. -/
def writeFilesGo (e : Endian) :
    List XBFile → Nat → List Nat → List Nat → Except PyExc (List Nat × List Nat)
  | [], _, filesAcc, fstAcc => .ok (filesAcc, fstAcc)
  | f :: rest, fstOffset, filesAcc, fstAcc =>
    (xbCompressData e f).bind fun cd =>
      let cd := utilityUtilAlignBytes cd 4
      let filesAcc := filesAcc ++ cd
      if (0xFFFFFFF : Int) - cd.length ≤ (fstOffset / 4 : Nat) then .error .archiveError
      else
        (u32Bytes e f.data.length).bind fun szBytes =>
          if fstOffset % 4 = 0 then
            (u32Bytes e (packCmpOff f.compression.val (fstOffset / 4))).bind fun cmpoffBytes =>
              writeFilesGo e rest (fstOffset + cd.length) filesAcc
                (fstAcc ++ szBytes ++ cmpoffBytes)
          else .error .assertionError

/-- Archive signature (archive.py line 58). -/
def SIGNATURE : List Nat := [0x78, 0x65, 0x00, 0x01]

/-- `XBArchive.__write` (archive.py lines 430-523): build the string table,
compute the initial file-data offset (header, FST, string table), run the
file loop, then emit signature, file count, FST, string table and file data
in that order.  Nothing reaches the output stream unless every earlier step
succeeded. -/
def writeArchive (e : Endian) (files : List XBFile) : Except PyExc (List Nat) :=
  (buildStrtab e files).bind fun strtabData =>
    let fstOffset := 4 * 2 + 4 * 2 * files.length + strtabData.length
    (writeFilesGo e files fstOffset [] []).bind fun (filesData, fstData) =>
      (u32Bytes e files.length).map fun countBytes =>
        SIGNATURE ++ countBytes ++ fstData ++ strtabData ++ filesData

/-- In-memory state of an `XBArchive`: the stored open-mode string, the
underlying stream (`None` after the archive has been closed; the physical
`FileStream` is represented by its buffered contents), and the file list. -/
structure ArchiveState where
  openMode : List Char
  strm : Option BufferStream
  files : List XBFile
  deriving DecidableEq, Repr

/-- `XBArchive.close` (archive.py lines 203-211): in write/create mode run
`__write` (whose first statement `BufferStream(self.endian)` reads
`self._strm.endian`, so a missing stream raises `AttributeError` before
anything else), write the four sections to the stream, then close the
stream and set `self._strm = None`.  In read mode only the last two steps
run; `self._strm.close()` on `None` raises `AttributeError`. -/
def closeArchive (st : ArchiveState) : Except PyExc ArchiveState :=
  match st.openMode.head? with
  | none => .error .indexError
  | some m =>
    if m = 'w' ∨ m = 'x' then
      match st.strm with
      | none => .error .attributeError
      | some s =>
        (writeArchive s.endian st.files).map fun _outBytes =>
          { st with strm := none }
    else
      match st.strm with
      | none => .error .attributeError
      | some _ => .ok { st with strm := none }

/-! ## Definitions taken from the specification's wording, for comparison
with the source-derived definitions above. -/

/-- Rotation described by the spec for the path hash: rotate the low byte of
`h` left by one bit, bit 7 wrapping to bit 0. -/
def specRotateLeft8 (h : Nat) : Nat :=
  (h % 256) * 2 % 256 + (h % 256) / 128

/-- Path hash as the spec words it: start from 0, for each character
`h = rotateLeft8(h, 1) XOR codepoint(c)`, and finally mask with `0xFF`. -/
def specPathHash (value : List Nat) : Nat :=
  (value.foldl (fun h c => specRotateLeft8 h ^^^ c) 0) % 256

/-- Decompressed size declared by the first header word of a compressed
block (the value `read_u32` returns at position 0). -/
def declaredDecompSize (e : Endian) (buf : List Nat) : Nat :=
  fromBytes e (buf.take 4)

/-- Aligned compressed-payload size of one file (0 when compression fails;
the capacity claims below only quantify over files whose compression
succeeds). -/
def specAlignedSize (e : Endian) (f : XBFile) : Nat :=
  match xbCompressAligned e f with
  | .ok d => d.length
  | .error _ => 0

/-- Capacity condition as claim C7 words it: at some point while laying out
the file-data section, the running offset divided by 4 exceeds
`0xFFFFFFF`. -/
def specOffsetExceeds (e : Endian) : Nat → List XBFile → Bool
  | off, [] => decide (0xFFFFFFF < off / 4)
  | off, f :: rest =>
    decide (0xFFFFFFF < off / 4) || specOffsetExceeds e (off + specAlignedSize e f) rest

/-- The guard the code actually evaluates (archive.py line 494), replayed
over the file list: at some file,
`(fst_offset // 4) >= 0xFFFFFFF - len(compress_data)`. -/
def capacityGuardFires (e : Endian) : Nat → List XBFile → Bool
  | _, [] => false
  | off, f :: rest =>
    match xbCompressAligned e f with
    | .error _ => false
    | .ok d =>
      if (0xFFFFFFF : Int) - d.length ≤ (off / 4 : Nat) then true
      else capacityGuardFires e (off + d.length) rest

/-- Start of the file-data section (archive.py lines 454-457): header, FST,
then string-table bytes. -/
def fstStartOffset (files : List XBFile) (strtabData : List Nat) : Nat :=
  4 * 2 + 4 * 2 * files.length + strtabData.length

/-- Decidable equality for the `Except` results of the embedded code. -/
instance instDecEqExcept {ε α : Type} [DecidableEq ε] [DecidableEq α] :
    DecidableEq (Except ε α)
  | .ok a, .ok b =>
    if h : a = b then .isTrue (by rw [h]) else .isFalse (by simp [h])
  | .error a, .error b =>
    if h : a = b then .isTrue (by rw [h]) else .isFalse (by simp [h])
  | .ok _, .error _ => .isFalse (by simp)
  | .error _, .ok _ => .isFalse (by simp)

end LibXB

namespace LibXB

/-! ## Helper lemmas -/

/-- Disjoint-bits or is addition: when `b` fits in the low `n` bits,
`(a <<< n) ||| b` is `a * 2 ^ n + b`. -/
theorem shiftLeft_lor_eq_add (n : Nat) :
    ∀ a b : Nat, b < 2 ^ n → (a <<< n) ||| b = a * 2 ^ n + b := by
  induction n with
  | zero =>
    intro a b h
    have hb : b = 0 := Nat.lt_one_iff.mp h
    subst hb
    simp
  | succ n ih =>
    intro a b h
    have hb2 : b / 2 < 2 ^ n := by
      rw [Nat.pow_succ] at h
      omega
    have hshift : a <<< (n + 1) = Nat.bit false (a <<< n) := by
      simp only [Nat.bit, cond_false, Nat.shiftLeft_succ]
    rcases Nat.mod_two_eq_zero_or_one b with hc | hc
    · have hb : b = Nat.bit false (b / 2) := by
        simp only [Nat.bit, cond_false]
        omega
      rw [hshift, hb, Nat.lor_bit]
      have hih := ih a (b / 2) hb2
      simp only [Nat.bit, Bool.or_self, cond_false, Bool.or_false]
      rw [hih, Nat.pow_succ]
      ring_nf
    · have hb : b = Nat.bit true (b / 2) := by
        simp only [Nat.bit, cond_true]
        omega
      rw [hshift, hb, Nat.lor_bit]
      have hih := ih a (b / 2) hb2
      simp only [Nat.bit, Bool.false_or, cond_true]
      rw [hih, Nat.pow_succ]
      ring_nf

/-- The source's hash step equals the spec's rotate-then-xor step. -/
theorem hashStep_eq_spec (h c : Nat) : hashStep h c = specRotateLeft8 h ^^^ c := by
  unfold hashStep specRotateLeft8
  have h127 : h &&& 0x7F = h % 128 := by
    have := Nat.and_pow_two_sub_one_eq_mod h 7
    norm_num at this
    exact this
  have h128 : h &&& 0x80 = (h.testBit 7).toNat * 128 := by
    have := Nat.and_two_pow h 7
    norm_num at this
    exact this
  have htb : (h.testBit 7).toNat = h / 128 % 2 := by
    rw [Nat.testBit_to_div_mod]
    norm_num
    rcases Nat.mod_two_eq_zero_or_one (h / 128) with hm | hm
    · simp [hm]
    · simp [hm]
  rw [h127, h128]
  have hshr : ((h.testBit 7).toNat * 128) >>> 7 = (h.testBit 7).toNat := by
    rw [Nat.shiftRight_eq_div_pow]
    norm_num
  rw [hshr]
  have hlt : (h.testBit 7).toNat < 2 ^ 1 := by
    rcases h.testBit 7 <;> norm_num
  have hor := shiftLeft_lor_eq_add 1 (h % 128) ((h.testBit 7).toNat) hlt
  rw [hor, htb]
  congr 1
  · omega

/-- Claim C3: the string-table path hash is the pure rotate-left-and-xor
fold the spec describes, and `hash("abc") = 34`. -/
theorem string_table_hash_spec_and_abc :
    (∀ value : List Nat, stringTableHash value = specPathHash value) ∧
      stringTableHash [97, 98, 99] = 34 := by
  constructor
  · intro value
    unfold stringTableHash specPathHash
    have hstep : hashStep = fun h c => specRotateLeft8 h ^^^ c := by
      funext h c
      exact hashStep_eq_spec h c
    rw [hstep]
    have := Nat.and_pow_two_sub_one_eq_mod (value.foldl (fun h c => specRotateLeft8 h ^^^ c) 0) 8
    norm_num at this
    exact this
  · decide

end LibXB

namespace LibXB

/-- Claim C4: packing a tag in [0,15] and a 4-aligned offset whose quarter
fits in 28 bits into one 32-bit word, then unpacking, recovers both. -/
theorem fst_pack_unpack_roundtrip (tag offset : Nat) (_htag : tag ≤ 15)
    (halign : offset % 4 = 0) (hcap : offset / 4 ≤ 0xFFFFFFF) :
    unpackTag (packCmpOff tag (offset / 4)) = tag ∧
      unpackOffset (packCmpOff tag (offset / 4)) = offset := by
  have hlt : offset / 4 < 2 ^ 28 := by norm_num at hcap ⊢; omega
  have hpack : packCmpOff tag (offset / 4) = tag * 2 ^ 28 + offset / 4 :=
    shiftLeft_lor_eq_add 28 tag (offset / 4) hlt
  constructor
  · unfold unpackTag
    rw [hpack, Nat.shiftRight_eq_div_pow]
    norm_num
    omega
  · unfold unpackOffset
    rw [hpack]
    have hmask := Nat.and_pow_two_sub_one_eq_mod (tag * 2 ^ 28 + offset / 4) 28
    norm_num at hmask hlt ⊢
    rw [hmask, Nat.mul_comm tag 268435456, Nat.mul_add_mod, Nat.mod_eq_of_lt hlt]
    omega

/-- Witness for C4 at tag 2 (LZS) and offset 8. -/
theorem fst_pack_unpack_roundtrip_witness :
    unpackTag (packCmpOff 2 (8 / 4)) = 2 ∧ unpackOffset (packCmpOff 2 (8 / 4)) = 8 :=
  fst_pack_unpack_roundtrip 2 8 (by decide) (by decide) (by decide)

/-- Counterexample to claim C9: on the already-aligned input 4 with
alignment 4, the two alignment helpers disagree (8 versus 4), and
`util.align` does not return the least multiple that is at least the
input. -/
theorem align_helpers_disagree_on_aligned :
    utilAlign 4 4 = 8 ∧ utilityUtilAlign 4 4 = 4 ∧
      utilAlign 4 4 ≠ utilityUtilAlign 4 4 := by decide

/-- Claim C9 as amended: `Util.align` (utility.py) returns the least
multiple of the alignment that is at least the input, while `align`
(util.py) returns the least multiple strictly greater than the input; the
two agree exactly on inputs that are not already aligned. -/
theorem align_helpers_characterization (n a : Nat) (ha : 0 < a) :
    (utilityUtilAlign n a % a = 0 ∧ n ≤ utilityUtilAlign n a ∧ utilityUtilAlign n a < n + a) ∧
      (utilAlign n a % a = 0 ∧ n < utilAlign n a ∧ utilAlign n a ≤ n + a) ∧
      (utilAlign n a = utilityUtilAlign n a ↔ n % a ≠ 0) := by
  have hr : n % a < a := Nat.mod_lt n ha
  have hq := Nat.div_add_mod n a
  unfold utilAlign utilityUtilAlign
  rcases Nat.eq_zero_or_pos (n % a) with h0 | hpos
  · rw [h0, Nat.sub_zero, Nat.mod_self]
    have hna : (n + a) % a = 0 := by
      rw [Nat.add_mod_right]
      exact h0
    refine ⟨⟨by simpa using h0, by omega, by omega⟩, ⟨hna, by omega, by omega⟩, ?_⟩
    constructor
    · intro hEq
      omega
    · intro hne
      exact absurd rfl hne
  · have hsub : (a - n % a) % a = a - n % a := Nat.mod_eq_of_lt (by omega)
    rw [hsub]
    have hdvd : (n + (a - n % a)) % a = 0 := by
      have hx : n + (a - n % a) = a * (n / a) + a := by omega
      have hx2 : a * (n / a) + a = a * (n / a + 1) := by ring
      rw [hx, hx2]
      exact Nat.mul_mod_right a (n / a + 1)
    refine ⟨⟨hdvd, by omega, by omega⟩, ⟨hdvd, by omega, by omega⟩, ?_⟩
    exact ⟨fun _ => by omega, fun _ => rfl⟩

/-- Witness for C9's amended characterization at n = 5, a = 4. -/
theorem align_helpers_characterization_witness :
    (utilityUtilAlign 5 4 % 4 = 0 ∧ 5 ≤ utilityUtilAlign 5 4 ∧ utilityUtilAlign 5 4 < 5 + 4) ∧
      (utilAlign 5 4 % 4 = 0 ∧ 5 < utilAlign 5 4 ∧ utilAlign 5 4 ≤ 5 + 4) ∧
      (utilAlign 5 4 = utilityUtilAlign 5 4 ↔ 5 % 4 ≠ 0) :=
  align_helpers_characterization 5 4 (by decide)

/-- Claim C1 (code behaviour at the failing input): `compress` overwrites
the first 8 bytes of its chunk stream with the header it seeks back to
write, so for the one-byte input `[0x41]` the compressed stream is the bare
header and decompressing it hits end-of-file instead of returning the
input. -/
theorem lzs_compress_header_destroys_roundtrip :
    ClapHanzLZS.compress ⟨.little, [0x41], 0⟩
        = .ok ⟨.little, [1, 0, 0, 0, 4, 0, 0, 0], 0⟩ ∧
      (ClapHanzLZS.compress ⟨.little, [0x41], 0⟩).bind ClapHanzLZS.decompress
        = .error .decompressionError := by decide

/-- Claim C2: the chunk stream `[0x08, 0x41, 0x42, 0x43, 0x31, 0x00]` with
declared decompressed length 6 decodes to "ABCABC" (both through the raw
decode loop and through `decompress` with the 8-byte header prepended), and
a self-overlapping back-reference (distance 1, run length 3) repeats the
last byte, because the copy runs one byte at a time. -/
theorem lzs_decode_abcabc :
    ClapHanzLZS.decodeGo 7 ⟨.little, [0x08, 0x41, 0x42, 0x43, 0x31, 0x00], 0⟩
        (List.replicate 6 0) 0 6
      = some (.ok (⟨.little, [0x08, 0x41, 0x42, 0x43, 0x31, 0x00], 6⟩,
          [65, 66, 67, 65, 66, 67])) ∧
    ClapHanzLZS.decompress ⟨.little, [6, 0, 0, 0, 6, 0, 0, 0, 0x08, 0x41, 0x42, 0x43, 0x31, 0x00], 0⟩
      = .ok ⟨.little, [65, 66, 67, 65, 66, 67], 0⟩ ∧
    ClapHanzLZS.decodeGo 5 ⟨.little, [0x00, 0x41, 0x11, 0x00], 0⟩ (List.replicate 4 0) 0 4
      = some (.ok (⟨.little, [0x00, 0x41, 0x11, 0x00], 4⟩, [65, 65, 65, 65])) := by decide

set_option maxRecDepth 10000 in
/-- Claim C5 (code behaviour at the failing input): a compressed block whose
table has a single 10-bit code populates one slot out of 1024; a bit stream
that selects any other slot makes the decode loop evaluate `entry.length`
on `None`, so `decompress` raises `AttributeError`, not
`DecompressionError`. -/
theorem huffman_unpopulated_slot_raises_attribute_error :
    ClapHanzHuffman.decompress
        ⟨.little, [1, 0, 0, 0, 1, 0, 0, 0, 10, 0, 0, 0, 0, 0, 0, 0, 0, 0, 1, 0x41, 1, 0], 0⟩
      = .error .attributeError := by decide

end LibXB

namespace LibXB

/-- Claim C10: with the cursor inside the buffer, `BufferStream.write`
replaces the bytes in `[pos, pos + len(data))` in place — earlier bytes and
bytes at or beyond `pos + len(data)` keep their positions, the written
bytes land exactly at `[pos, pos + len(data))`, the buffer grows only when
the write runs past the current end, and the cursor advances by
`len(data)`. -/
theorem buffer_stream_write_in_place (s : BufferStream) (data : List Nat)
    (h : s.pos ≤ s.buffer.length) :
    (s.write data).pos = s.pos + data.length ∧
      (s.write data).buffer.length = max s.buffer.length (s.pos + data.length) ∧
      (∀ i, i < s.pos → (s.write data).buffer[i]? = s.buffer[i]?) ∧
      (∀ i, i < data.length → (s.write data).buffer[s.pos + i]? = data[i]?) ∧
      (∀ i, s.pos + data.length ≤ i → (s.write data).buffer[i]? = s.buffer[i]?) := by
  unfold BufferStream.write
  have hX : (List.take s.pos s.buffer ++ data).length = s.pos + data.length := by
    simp only [List.length_append, List.length_take]
    omega
  have htk : (List.take s.pos s.buffer).length = s.pos := by
    rw [List.length_take]
    omega
  refine ⟨rfl, ?_, ?_, ?_, ?_⟩
  · simp only [List.length_append, List.length_take, List.length_drop]
    omega
  · intro i hi
    show (List.take s.pos s.buffer ++ data ++ List.drop (s.pos + data.length) s.buffer)[i]?
      = s.buffer[i]?
    rw [List.getElem?_append, if_pos (by rw [hX]; omega)]
    rw [List.getElem?_append, if_pos (by rw [htk]; omega)]
    rw [List.getElem?_take, if_pos hi]
  · intro i hi
    show (List.take s.pos s.buffer ++ data ++ List.drop (s.pos + data.length) s.buffer)[s.pos + i]?
      = data[i]?
    rw [List.getElem?_append, if_pos (by rw [hX]; omega)]
    rw [List.getElem?_append_right (by rw [htk]; omega)]
    rw [htk]
    congr 1
    omega
  · intro i hi
    show (List.take s.pos s.buffer ++ data ++ List.drop (s.pos + data.length) s.buffer)[i]?
      = s.buffer[i]?
    rw [List.getElem?_append_right (by rw [hX]; omega)]
    rw [List.getElem?_drop, hX]
    congr 1
    omega

/-- Witness for C10: writing two bytes at cursor position 1 of a three-byte
buffer overwrites the middle and last byte in place. -/
theorem buffer_stream_write_in_place_witness :
    ((BufferStream.mk .little [1, 2, 3] 1).write [9, 8]).pos = 3 ∧
      ((BufferStream.mk .little [1, 2, 3] 1).write [9, 8]).buffer[0]? = some 1 ∧
      ((BufferStream.mk .little [1, 2, 3] 1).write [9, 8]).buffer[1]? = some 9 := by
  have t := buffer_stream_write_in_place (BufferStream.mk .little [1, 2, 3] 1) [9, 8]
    (by decide)
  refine ⟨t.1, ?_, ?_⟩
  · have := t.2.2.1 0 (by decide)
    simpa using this
  · have := t.2.2.2.1 0 (by decide)
    simpa using this

end LibXB

namespace LibXB

/-- The only error `BufferStream.read` raises is `EOFError`. -/
theorem read_error_eof (s : BufferStream) (n : Nat) (e : PyExc)
    (h : s.read n = .error e) : e = .eofError := by
  unfold BufferStream.read at h
  split at h
  · exact (Except.error.injEq .. ▸ h.symm).symm ▸ rfl
  · split at h <;> simp_all

/-- The only error `BufferStream.readU8` raises is `EOFError`. -/
theorem readU8_error_eof (s : BufferStream) (e : PyExc)
    (h : s.readU8 = .error e) : e = .eofError := by
  unfold BufferStream.readU8 at h
  cases hr : s.read 1 with
  | error e' =>
    rw [hr] at h
    have he : e' = e := by simpa [Except.map] using h
    exact he ▸ read_error_eof s 1 e' hr
  | ok v =>
    rw [hr] at h
    simp [Except.map] at h

/-- Reading with enough bytes left succeeds and returns exactly the next
`n` bytes. -/
theorem read_exact (s : BufferStream) (n : Nat) (h : s.pos + n ≤ s.buffer.length)
    (hn : 0 < n) :
    s.read n = .ok ((s.buffer.drop s.pos).take n, { s with pos := s.pos + n }) := by
  unfold BufferStream.read BufferStream.length
  rw [if_neg (by omega)]
  rcases Nat.lt_or_ge (s.pos + n) s.buffer.length with hlt | hge
  · rw [if_neg (by omega)]
  · have hEq : s.buffer.length = s.pos + n := by omega
    rw [if_pos (by omega)]
    have hdl : (s.buffer.drop s.pos).take n = s.buffer.drop s.pos := by
      apply List.take_of_length_le
      rw [List.length_drop]
      omega
    rw [hdl, hEq]

/-- A four-byte read through `readU32` with at least four bytes left. -/
theorem readU32_exact (s : BufferStream) (h : s.pos + 4 ≤ s.buffer.length) :
    s.readU32 = .ok (fromBytes s.endian ((s.buffer.drop s.pos).take 4),
      { s with pos := s.pos + 4 }) := by
  unfold BufferStream.readU32
  rw [read_exact s 4 h (by omega)]
  rfl

end LibXB

namespace LibXB

/-- On success the literal-copy loop advances `out_idx` by exactly the run
length and keeps the output length unchanged. -/
theorem litCopy_ok (n : Nat) : ∀ strm output outIdx strm' output' outIdx',
    ClapHanzLZS.litCopy n strm output outIdx = .ok (strm', output', outIdx') →
    outIdx' = outIdx + n ∧ output'.length = output.length := by
  induction n with
  | zero =>
    intro strm output outIdx strm' output' outIdx' h
    unfold ClapHanzLZS.litCopy at h
    simp only [Except.ok.injEq, Prod.mk.injEq] at h
    obtain ⟨-, h2, h3⟩ := h
    subst h2; subst h3
    exact ⟨rfl, rfl⟩
  | succ n ih =>
    intro strm output outIdx strm' output' outIdx' h
    unfold ClapHanzLZS.litCopy at h
    cases hr : strm.readU8 with
    | error e => rw [hr] at h; simp [Except.bind] at h
    | ok v =>
      rw [hr] at h
      obtain ⟨b, strm2⟩ := v
      simp only [Except.bind] at h
      split at h
      · have := ih strm2 (output.set outIdx b) (outIdx + 1) strm' output' outIdx' h
        rw [List.length_set] at this
        omega
      · simp at h

/-- Errors from the literal-copy loop are `EOFError` or `IndexError`. -/
theorem litCopy_error (n : Nat) : ∀ strm output outIdx e,
    ClapHanzLZS.litCopy n strm output outIdx = .error e →
    e = .eofError ∨ e = .indexError := by
  induction n with
  | zero =>
    intro strm output outIdx e h
    unfold ClapHanzLZS.litCopy at h
    simp at h
  | succ n ih =>
    intro strm output outIdx e h
    unfold ClapHanzLZS.litCopy at h
    cases hr : strm.readU8 with
    | error e' =>
      rw [hr] at h
      simp only [Except.bind] at h
      have he : e' = e := by simpa using h
      exact .inl (he ▸ readU8_error_eof strm e' hr)
    | ok v =>
      rw [hr] at h
      obtain ⟨b, strm2⟩ := v
      simp only [Except.bind] at h
      split at h
      · exact ih _ _ _ _ h
      · simp only [Except.error.injEq] at h
        exact .inr h.symm

/-- The only error Python list indexing raises is `IndexError`. -/
theorem pyGet_error (output : List Nat) (i : Int) (e : PyExc)
    (h : ClapHanzLZS.pyGet output i = .error e) : e = .indexError := by
  unfold ClapHanzLZS.pyGet at h
  split at h
  · split at h <;> simp_all
  · split at h
    · split at h <;> simp_all
    · simp_all

/-- On success the back-reference copy loop advances `out_idx` by the run
length and keeps the output length unchanged. -/
theorem runCopy_ok (n : Nat) : ∀ output outIdx runIdx output' outIdx',
    ClapHanzLZS.runCopy n output outIdx runIdx = .ok (output', outIdx') →
    outIdx' = outIdx + n ∧ output'.length = output.length := by
  induction n with
  | zero =>
    intro output outIdx runIdx output' outIdx' h
    unfold ClapHanzLZS.runCopy at h
    simp only [Except.ok.injEq, Prod.mk.injEq] at h
    obtain ⟨h1, h2⟩ := h
    subst h1; subst h2
    exact ⟨rfl, rfl⟩
  | succ n ih =>
    intro output outIdx runIdx output' outIdx' h
    unfold ClapHanzLZS.runCopy at h
    cases hr : ClapHanzLZS.pyGet output runIdx with
    | error e => rw [hr] at h; simp [Except.bind] at h
    | ok b =>
      rw [hr] at h
      simp only [Except.bind] at h
      split at h
      · have := ih (output.set outIdx b) (outIdx + 1) (runIdx + 1) output' outIdx' h
        rw [List.length_set] at this
        omega
      · simp at h

/-- Errors from the back-reference copy loop are all `IndexError`. -/
theorem runCopy_error (n : Nat) : ∀ output outIdx runIdx e,
    ClapHanzLZS.runCopy n output outIdx runIdx = .error e → e = .indexError := by
  induction n with
  | zero =>
    intro output outIdx runIdx e h
    unfold ClapHanzLZS.runCopy at h
    simp at h
  | succ n ih =>
    intro output outIdx runIdx e h
    unfold ClapHanzLZS.runCopy at h
    cases hr : ClapHanzLZS.pyGet output runIdx with
    | error e' =>
      rw [hr] at h
      simp only [Except.bind] at h
      have he : e' = e := by simpa using h
      exact he ▸ pyGet_error output runIdx e' hr
    | ok b =>
      rw [hr] at h
      simp only [Except.bind] at h
      split at h
      · exact ih _ _ _ _ h
      · simp only [Except.error.injEq] at h
        exact h.symm

end LibXB

namespace LibXB

/-- Outcomes of the LZS decode loop when the output buffer has the declared
size and the fuel exceeds the bytes still owed: either success with an
output of exactly the declared size, or an `EOFError`/`IndexError`. -/
theorem decodeGo_cases (fuel : Nat) : ∀ strm output outIdx decompSize,
    output.length = decompSize → decompSize - outIdx < fuel →
    (∃ strm' output',
        ClapHanzLZS.decodeGo fuel strm output outIdx decompSize = some (.ok (strm', output')) ∧
          output'.length = decompSize) ∨
      ClapHanzLZS.decodeGo fuel strm output outIdx decompSize = some (.error .eofError) ∨
      ClapHanzLZS.decodeGo fuel strm output outIdx decompSize = some (.error .indexError) := by
  induction fuel with
  | zero =>
    intro strm output outIdx decompSize hout hfuel
    omega
  | succ fuel ih =>
    intro strm output outIdx decompSize hout hfuel
    rcases Nat.lt_or_ge outIdx decompSize with hidx | hidx
    case inr =>
      left
      refine ⟨strm, output, ?_, hout⟩
      unfold ClapHanzLZS.decodeGo
      rw [if_neg (by omega)]
    case inl =>
      unfold ClapHanzLZS.decodeGo
      rw [if_pos hidx]
      cases hr : strm.readU8 with
      | error e =>
        right
        rw [readU8_error_eof strm e hr]
        simp
      | ok v =>
        obtain ⟨code, strm1⟩ := v
        dsimp only
        by_cases hlit : code &&& 3 = 0
        · rw [if_pos hlit]
          cases hl : ClapHanzLZS.litCopy ((code >>> 2) + 1) strm1 output outIdx with
          | error e =>
            rcases litCopy_error _ _ _ _ _ hl with he | he <;> (subst he; simp)
          | ok w =>
            obtain ⟨strm2, output2, outIdx2⟩ := w
            obtain ⟨hidx2, hlen2⟩ := litCopy_ok _ _ _ _ _ _ _ hl
            exact ih strm2 output2 outIdx2 decompSize (hlen2.trans hout) (by omega)
        · rw [if_neg hlit]
          by_cases hshort : code &&& 1 ≠ 0
          · rw [if_pos hshort]
            cases hr2 : strm1.readU8 with
            | error e =>
              right
              rw [readU8_error_eof strm1 e hr2]
              simp
            | ok v2 =>
              obtain ⟨b0, strm2⟩ := v2
              dsimp only
              set runLen := (((b0 <<< 8 ||| code) &&& 0b1110) >>> 1) + 3 with hrl
              cases hrc : ClapHanzLZS.runCopy runLen output outIdx
                  ((outIdx : Int) - ((b0 <<< 8 ||| code) >>> 4)) with
              | error e =>
                have he := runCopy_error _ _ _ _ _ hrc
                subst he
                simp
              | ok w =>
                obtain ⟨output2, outIdx2⟩ := w
                obtain ⟨hidx2, hlen2⟩ := runCopy_ok _ _ _ _ _ _ hrc
                exact ih strm2 output2 outIdx2 decompSize (hlen2.trans hout) (by omega)
          · rw [if_neg hshort]
            cases hr2 : strm1.readU8 with
            | error e =>
              right
              rw [readU8_error_eof strm1 e hr2]
              simp
            | ok v2 =>
              obtain ⟨b0, strm2⟩ := v2
              dsimp only
              cases hr3 : strm2.readU8 with
              | error e =>
                right
                rw [readU8_error_eof strm2 e hr3]
                simp
              | ok v3 =>
                obtain ⟨b1, strm3⟩ := v3
                dsimp only
                set runLen :=
                  (((b1 <<< 16 ||| b0 <<< 8 ||| code) &&& 0b111111111100) >>> 2) + 3 with hrl
                cases hrc : ClapHanzLZS.runCopy runLen output outIdx
                    ((outIdx : Int) - ((b1 <<< 16 ||| b0 <<< 8 ||| code) >>> 12)) with
                | error e =>
                  have he := runCopy_error _ _ _ _ _ hrc
                  subst he
                  simp
                | ok w =>
                  obtain ⟨output2, outIdx2⟩ := w
                  obtain ⟨hidx2, hlen2⟩ := runCopy_ok _ _ _ _ _ _ hrc
                  exact ih strm3 output2 outIdx2 decompSize (hlen2.trans hout) (by omega)

end LibXB

namespace LibXB

/-- Claim C6: given the 8-byte header is present and the declared
decompressed size is non-zero, `ClapHanzLZS.decompress` either returns a
buffer of exactly the declared decompressed length, or raises
`DecompressionError` — overrunning the output buffer or the compressed
input inside the decode loop is always surfaced as that error. -/
theorem lzs_decompress_exact_length_or_corruption (e : Endian) (buf : List Nat)
    (hlen : 8 ≤ buf.length) (hds : declaredDecompSize e buf ≠ 0) :
    match ClapHanzLZS.decompress ⟨e, buf, 0⟩ with
    | .ok out => out.buffer.length = declaredDecompSize e buf
    | .error err => err = .decompressionError := by
  have h1 : (BufferStream.mk e buf 0).readU32
      = .ok (declaredDecompSize e buf, ⟨e, buf, 4⟩) := by
    have h := readU32_exact ⟨e, buf, 0⟩ (by dsimp; omega)
    simpa [declaredDecompSize] using h
  have h2 : (BufferStream.mk e buf 4).readU32
      = .ok (fromBytes e ((buf.drop 4).take 4), ⟨e, buf, 8⟩) := by
    have h := readU32_exact ⟨e, buf, 4⟩ (by dsimp; omega)
    simpa using h
  unfold ClapHanzLZS.decompress
  rw [h1]
  dsimp only [Except.bind]
  rw [h2]
  dsimp only [Except.bind]
  rw [if_neg hds]
  by_cases hcs : fromBytes e ((buf.drop 4).take 4) = 0
  · rw [if_pos hcs]
  · rw [if_neg hcs]
    have hc := decodeGo_cases (declaredDecompSize e buf + 1) ⟨e, buf, 8⟩
      (List.replicate (declaredDecompSize e buf) 0) 0 (declaredDecompSize e buf)
      (List.length_replicate _ _) (by omega)
    rcases hc with ⟨strm', out', hEq, hlen'⟩ | hEq | hEq
    · rw [hEq]
      exact hlen'
    · rw [hEq]
    · rw [hEq]

/-- Witness for C6 at the "ABCABC" block: header plus chunk stream, declared
size 6. -/
theorem lzs_decompress_exact_length_or_corruption_witness :
    match ClapHanzLZS.decompress
        ⟨.little, [6, 0, 0, 0, 6, 0, 0, 0, 0x08, 0x41, 0x42, 0x43, 0x31, 0x00], 0⟩ with
    | .ok out =>
      out.buffer.length
        = declaredDecompSize .little [6, 0, 0, 0, 6, 0, 0, 0, 0x08, 0x41, 0x42, 0x43, 0x31, 0x00]
    | .error err => err = .decompressionError :=
  lzs_decompress_exact_length_or_corruption .little
    [6, 0, 0, 0, 6, 0, 0, 0, 0x08, 0x41, 0x42, 0x43, 0x31, 0x00] (by decide) (by decide)

end LibXB

namespace LibXB

/-- Facts about a successful buffered read: the cursor was inside the
buffer, the buffer and endianness are unchanged, the new cursor is clamped
at the end, and the returned data is exactly the bytes skipped. -/
theorem read_ok_facts (s : BufferStream) (n : Nat) (data : List Nat) (s' : BufferStream)
    (h : s.read n = .ok (data, s')) :
    s.pos < s.buffer.length ∧ s'.buffer = s.buffer ∧ s'.endian = s.endian ∧
      s'.pos = min s.buffer.length (s.pos + n) ∧ data.length = s'.pos - s.pos := by
  unfold BufferStream.read BufferStream.length at h
  split at h
  · simp at h
  · rename_i hpos
    split at h
    · rename_i hclamp
      simp only [Except.ok.injEq, Prod.mk.injEq] at h
      obtain ⟨hd, hs⟩ := h
      subst hd
      subst hs
      refine ⟨by omega, rfl, rfl, ?_, ?_⟩
      · dsimp only
        omega
      · simp only [List.length_drop]
    · rename_i hclamp
      simp only [Except.ok.injEq, Prod.mk.injEq] at h
      obtain ⟨hd, hs⟩ := h
      subst hd
      subst hs
      refine ⟨by omega, rfl, rfl, ?_, ?_⟩
      · dsimp only
        omega
      · simp only [List.length_take, List.length_drop]
        omega

/-- A read on a stream that is not at end-of-buffer succeeds. -/
theorem read_ok_of_not_eof (s : BufferStream) (n : Nat)
    (h : ¬ s.buffer.length ≤ s.pos) :
    ∃ data s', s.read n = .ok (data, s') := by
  unfold BufferStream.read BufferStream.length
  rw [if_neg h]
  split
  · exact ⟨_, _, rfl⟩
  · exact ⟨_, _, rfl⟩

/-- Writing at a cursor that sits at the end of the buffer appends. -/
theorem write_append (s : BufferStream) (d : List Nat) (h : s.pos = s.buffer.length) :
    (s.write d).buffer = s.buffer ++ d ∧ (s.write d).pos = (s.write d).buffer.length := by
  unfold BufferStream.write
  constructor
  · dsimp only
    rw [h]
    rw [List.take_of_length_le (Nat.le_refl _), List.drop_eq_nil_of_le (by omega)]
    simp
  · dsimp only
    rw [h]
    rw [List.take_of_length_le (Nat.le_refl _), List.drop_eq_nil_of_le (by omega)]
    simp [List.length_append]

/-- The compression loop succeeds whenever the fuel exceeds the remaining
input, and its output grows by at most two bytes per input byte. -/
theorem compressGo_ok (fuel : Nat) : ∀ strm output : BufferStream,
    output.pos = output.buffer.length →
    strm.buffer.length - strm.pos < fuel →
    ∃ out', ClapHanzLZS.compressGo fuel strm output = some (.ok out') ∧
      out'.buffer.length ≤ output.buffer.length + 2 * (strm.buffer.length - strm.pos) := by
  induction fuel with
  | zero =>
    intro strm output hinv hfuel
    omega
  | succ fuel ih =>
    intro strm output hinv hfuel
    by_cases heof : strm.eof = true
    · refine ⟨output, ?_, by omega⟩
      unfold ClapHanzLZS.compressGo
      rw [if_pos heof]
    · have hpos : ¬ strm.buffer.length ≤ strm.pos := by
        unfold BufferStream.eof BufferStream.length at heof
        simpa using heof
      obtain ⟨chunk, strm', hread⟩ := read_ok_of_not_eof strm 64 hpos
      obtain ⟨hlt, hbuf, hend, hpos', hdata⟩ := read_ok_facts strm 64 chunk strm' hread
      have hcode : (chunk.length - 1) <<< 2 ||| 0 < 256 := by
        have hc64 : chunk.length ≤ 64 := by omega
        rw [Nat.or_zero, Nat.shiftLeft_eq]
        omega
      unfold ClapHanzLZS.compressGo
      rw [if_neg (by simpa using heof), hread]
      dsimp only
      unfold BufferStream.writeU8
      rw [if_pos hcode]
      dsimp only
      have hw1 := write_append output (toBytes output.endian 1 ((chunk.length - 1) <<< 2 ||| 0)) hinv
      have hw2 := write_append (output.write (toBytes output.endian 1 ((chunk.length - 1) <<< 2 ||| 0)))
        chunk hw1.2
      have hprog : strm.pos < strm'.pos := by omega
      have hrec := ih strm' ((output.write (toBytes output.endian 1 ((chunk.length - 1) <<< 2 ||| 0))).write chunk)
        hw2.2 (by rw [hbuf]; omega)
      obtain ⟨out', hgo, hbound⟩ := hrec
      refine ⟨out', hgo, ?_⟩
      have hlen2 : ((output.write (toBytes output.endian 1 ((chunk.length - 1) <<< 2 ||| 0))).write chunk).buffer.length
          = output.buffer.length + (toBytes output.endian 1 ((chunk.length - 1) <<< 2 ||| 0)).length + chunk.length := by
        rw [hw2.1, hw1.1]
        simp [List.length_append]
        omega
      have htb : (toBytes output.endian 1 ((chunk.length - 1) <<< 2 ||| 0)).length = 1 := by
        cases output.endian <;> rfl
      rw [hbuf] at hbound
      omega

/-- `ClapHanzLZS.compress` succeeds on any fresh stream of at most `2^30`
bytes (the two header words always fit in 32 bits). -/
theorem compress_ok (s : BufferStream) (hpos : s.pos = 0) (hlen : s.buffer.length ≤ 2 ^ 30) :
    ∃ out, ClapHanzLZS.compress s = .ok out := by
  obtain ⟨out', hgo, hbound⟩ := compressGo_ok (s.length + 1) s ⟨s.endian, [], 0⟩ rfl
    (by unfold BufferStream.length; omega)
  unfold ClapHanzLZS.compress
  rw [hgo]
  dsimp only
  unfold BufferStream.writeU32
  have hsl : BufferStream.length s < 2 ^ 32 := by
    unfold BufferStream.length
    omega
  rw [if_pos hsl]
  dsimp only
  set w1 := BufferStream.write { out' with pos := 0 } (toBytes ({ out' with pos := 0 } : BufferStream).endian 4 (BufferStream.length s)) with hw1
  have hw1len : w1.buffer.length < 2 ^ 32 := by
    rw [hw1]
    unfold BufferStream.write
    dsimp only
    simp only [List.length_append, List.length_take, List.length_drop]
    have : (toBytes out'.endian 4 (BufferStream.length s)).length = 4 := by
      cases out'.endian <;> rfl
    dsimp at hbound ⊢
    omega
  dsimp only [Except.bind]
  rw [if_pos (show BufferStream.length w1 < 2 ^ 32 from hw1len)]
  dsimp only [Except.bind]
  exact ⟨_, rfl⟩

end LibXB

namespace LibXB

/-- Length of an aligned byte buffer. -/
theorem utilityUtilAlignBytes_length (l : List Nat) (a : Nat) :
    (utilityUtilAlignBytes l a).length = l.length + (a - l.length % a) % a := by
  unfold utilityUtilAlignBytes
  simp [List.length_append, List.length_replicate]

/-- Four-byte alignment produces a length divisible by four. -/
theorem utilityUtilAlignBytes_length_mod (l : List Nat) :
    (utilityUtilAlignBytes l 4).length % 4 = 0 := by
  rw [utilityUtilAlignBytes_length]
  omega

/-- Compression of a file tagged `NONE` or `LZS` with at most `2^30` data
bytes succeeds. -/
theorem xbCompressData_ok (e : Endian) (f : XBFile)
    (hc : f.compression = .NONE ∨ f.compression = .LZS)
    (hd : f.data.length ≤ 2 ^ 30) :
    ∃ d, xbCompressData e f = .ok d := by
  rcases hc with hc | hc
  · exact ⟨f.data, by unfold xbCompressData; rw [hc]⟩
  · obtain ⟨out, hout⟩ := compress_ok ⟨e, f.data, 0⟩ rfl hd
    refine ⟨out.buffer, ?_⟩
    unfold xbCompressData
    rw [hc, hout]
    rfl

/-- The string table produced by `buildStrtab` is 4-byte aligned. -/
theorem buildStrtab_aligned (e : Endian) (files : List XBFile) (st : List Nat)
    (h : buildStrtab e files = .ok st) : st.length % 4 = 0 := by
  unfold buildStrtab at h
  cases hraw : buildStrtabRaw files with
  | error er => rw [hraw] at h; simp [Except.bind] at h
  | ok raw =>
    rw [hraw] at h
    dsimp only [Except.bind] at h
    cases hcomp : ClapHanzLZS.compress ⟨e, raw, 0⟩ with
    | error er => rw [hcomp] at h; simp [Except.map] at h
    | ok comp =>
      rw [hcomp] at h
      simp only [Except.map, Except.ok.injEq] at h
      rw [h.symm]
      exact utilityUtilAlignBytes_length_mod comp.buffer

/-- Outcome of the file-data/FST loop for well-formed files: it raises
`ArchiveError` exactly when the replayed guard fires, and otherwise
succeeds. -/
theorem writeFilesGo_guard (e : Endian) (files : List XBFile) :
    ∀ off filesAcc fstAcc,
    (∀ f ∈ files, (f.compression = .NONE ∨ f.compression = .LZS) ∧ f.data.length ≤ 2 ^ 30) →
    off % 4 = 0 →
    (capacityGuardFires e off files = true ∧
        writeFilesGo e files off filesAcc fstAcc = .error .archiveError) ∨
      (capacityGuardFires e off files = false ∧
        ∃ r, writeFilesGo e files off filesAcc fstAcc = .ok r) := by
  induction files with
  | nil =>
    intro off filesAcc fstAcc hgood halign
    right
    exact ⟨rfl, ⟨(filesAcc, fstAcc), rfl⟩⟩
  | cons f rest ih =>
    intro off filesAcc fstAcc hgood halign
    obtain ⟨d, hd⟩ := xbCompressData_ok e f (hgood f (by simp)).1 (hgood f (by simp)).2
    have hda : xbCompressAligned e f = .ok (utilityUtilAlignBytes d 4) := by
      unfold xbCompressAligned
      rw [hd]
      rfl
    unfold writeFilesGo capacityGuardFires
    rw [hd, hda]
    dsimp only [Except.bind]
    by_cases hguard :
        (0xFFFFFFF : Int) - (utilityUtilAlignBytes d 4).length ≤ ((off / 4 : Nat) : Int)
    · rw [if_pos hguard, if_pos hguard]
      exact .inl ⟨rfl, rfl⟩
    · rw [if_neg hguard, if_neg hguard]
      have hszlt : f.data.length < 2 ^ 32 := by
        have := (hgood f (by simp)).2
        omega
      unfold u32Bytes
      rw [if_pos hszlt]
      dsimp only [Except.bind]
      rw [if_pos halign]
      have hoff4 : off / 4 < 2 ^ 28 := by
        simp only [not_le] at hguard
        have hnn : (0 : Int) ≤ ((utilityUtilAlignBytes d 4).length : Int) := by positivity
        omega
      have htag : f.compression.val ≤ 3 := by
        cases f.compression <;> simp [XBCompression.val]
      have hcmp : packCmpOff f.compression.val (off / 4) < 2 ^ 32 := by
        unfold packCmpOff
        rw [shiftLeft_lor_eq_add 28 _ _ hoff4]
        have h28 : (2 : Nat) ^ 28 = 268435456 := by norm_num
        omega
      rw [if_pos hcmp]
      dsimp only [Except.bind]
      exact ih (off + (utilityUtilAlignBytes d 4).length) (filesAcc ++ utilityUtilAlignBytes d 4)
        (fstAcc ++ toBytes e 4 f.data.length ++ toBytes e 4 (packCmpOff f.compression.val (off / 4)))
        (fun g hg => hgood g (by simp [hg]))
        (by have := utilityUtilAlignBytes_length_mod d; omega)

end LibXB

namespace LibXB

/-- Claim C7 as amended: for a file list whose string table builds
successfully, whose files use the implemented `NONE`/`LZS` compressions
with at most `2^30` data bytes each, and whose count fits a 32-bit word,
serialization fails with the capacity `ArchiveError` exactly when the
code's own guard `(fst_offset // 4) >= 0xFFFFFFF - len(compress_data)`
fires at some file — a condition that is not the same as the running
offset divided by 4 exceeding `0xFFFFFFF`. -/
theorem write_capacity_guard_iff (e : Endian) (files : List XBFile) (st : List Nat)
    (hst : buildStrtab e files = .ok st)
    (hfiles : ∀ f ∈ files,
      (f.compression = .NONE ∨ f.compression = .LZS) ∧ f.data.length ≤ 2 ^ 30)
    (hcount : files.length < 2 ^ 32) :
    (writeArchive e files = .error .archiveError ↔
      capacityGuardFires e (fstStartOffset files st) files = true) := by
  unfold writeArchive
  rw [hst]
  dsimp only [Except.bind]
  have halign : (4 * 2 + 4 * 2 * files.length + st.length) % 4 = 0 := by
    have := buildStrtab_aligned e files st hst
    omega
  have hstart : fstStartOffset files st = 4 * 2 + 4 * 2 * files.length + st.length := rfl
  rw [hstart]
  rcases writeFilesGo_guard e files (4 * 2 + 4 * 2 * files.length + st.length) [] []
      hfiles halign with ⟨hg, hw⟩ | ⟨hg, ⟨r, hw⟩⟩
  · rw [hw, hg]
    simp
  · rw [hw, hg]
    obtain ⟨filesData, fstData⟩ := r
    dsimp only [Except.bind]
    unfold u32Bytes
    rw [if_pos hcount]
    dsimp only [Except.map]
    constructor
    · intro hcontra
      simp at hcontra
    · intro hcontra
      simp at hcontra

/-- Witness for C7's amended statement on a small archive that serializes
without hitting the capacity guard. -/
theorem write_capacity_guard_iff_witness :
    writeArchive .little [⟨[97], [65, 66, 67, 68], .NONE⟩] = .error .archiveError ↔
      capacityGuardFires .little
        (fstStartOffset [⟨[97], [65, 66, 67, 68], .NONE⟩] [4, 0, 0, 0, 5, 0, 0, 0])
        [⟨[97], [65, 66, 67, 68], .NONE⟩] = true :=
  write_capacity_guard_iff .little [⟨[97], [65, 66, 67, 68], .NONE⟩] [4, 0, 0, 0, 5, 0, 0, 0]
    (by decide) (by decide) (by decide)


end LibXB

namespace LibXB

/-- Serialization fails exactly like its file loop once the string table
has been built. -/
theorem writeArchive_error_of_loop (e : Endian) (files : List XBFile) (st : List Nat)
    (hst : buildStrtab e files = .ok st)
    (hw : writeFilesGo e files (4 * 2 + 4 * 2 * files.length + st.length) [] []
      = .error .archiveError) :
    writeArchive e files = .error .archiveError := by
  unfold writeArchive
  rw [hst]
  dsimp only [Except.bind]
  rw [hw]

/-- Counterexample to claim C7 as stated: a single 256 MiB uncompressed
file.  The code raises the capacity `ArchiveError` (its guard compares the
offset quarter against `0xFFFFFFF` minus the full byte length of the
payload), even though the running file-data offset divided by 4 never
exceeds `0xFFFFFFF` (it only reaches `(24 + 2^28) / 4 = 0x4000006`). -/
theorem write_capacity_check_counterexample :
    writeArchive .little [⟨[97], List.replicate (2 ^ 28) 0, .NONE⟩] = .error .archiveError ∧
      specOffsetExceeds .little
        (fstStartOffset [⟨[97], List.replicate (2 ^ 28) 0, .NONE⟩] [4, 0, 0, 0, 5, 0, 0, 0])
        [⟨[97], List.replicate (2 ^ 28) 0, .NONE⟩] = false ∧
      buildStrtab .little [⟨[97], List.replicate (2 ^ 28) 0, .NONE⟩]
        = .ok [4, 0, 0, 0, 5, 0, 0, 0] := by
  have hst : buildStrtab .little [(⟨[97], List.replicate (2 ^ 28) 0, .NONE⟩ : XBFile)]
      = .ok [4, 0, 0, 0, 5, 0, 0, 0] := by decide
  have hda : xbCompressAligned .little (⟨[97], List.replicate (2 ^ 28) 0, .NONE⟩ : XBFile)
      = .ok (utilityUtilAlignBytes (List.replicate (2 ^ 28) 0) 4) := rfl
  have hlen : (utilityUtilAlignBytes (List.replicate (2 ^ 28) 0) 4).length = 2 ^ 28 := by
    rw [utilityUtilAlignBytes_length, List.length_replicate]
    norm_num
  have hgood : ∀ f ∈ [(⟨[97], List.replicate (2 ^ 28) 0, .NONE⟩ : XBFile)],
      (f.compression = .NONE ∨ f.compression = .LZS) ∧ f.data.length ≤ 2 ^ 30 := by
    intro f hf
    simp only [List.mem_singleton] at hf
    subst hf
    refine ⟨.inl rfl, ?_⟩
    dsimp only
    rw [List.length_replicate]
    norm_num
  have hguardT : ∀ off : Nat, capacityGuardFires .little off
      [(⟨[97], List.replicate (2 ^ 28) 0, .NONE⟩ : XBFile)] = true := by
    intro off
    unfold capacityGuardFires
    rw [hda]
    dsimp only
    rw [if_pos ?cond]
    case cond =>
      rw [hlen]
      have hnn := Int.natCast_nonneg (off / 4)
      norm_num
      omega
  refine ⟨?_, ?_, hst⟩
  · rcases writeFilesGo_guard .little [(⟨[97], List.replicate (2 ^ 28) 0, .NONE⟩ : XBFile)]
        (4 * 2 + 4 * 2
            * ([(⟨[97], List.replicate (2 ^ 28) 0, .NONE⟩ : XBFile)] : List XBFile).length
          + ([4, 0, 0, 0, 5, 0, 0, 0] : List Nat).length) [] [] hgood (by norm_num)
      with ⟨-, hw⟩ | ⟨hg, -⟩
    · exact writeArchive_error_of_loop .little _ _ hst hw
    · rw [hguardT] at hg
      exact absurd hg (by simp)
  · have hsa : specAlignedSize .little (⟨[97], List.replicate (2 ^ 28) 0, .NONE⟩ : XBFile)
        = 2 ^ 28 := by
      unfold specAlignedSize
      rw [hda]
      exact hlen
    have hoff : fstStartOffset [(⟨[97], List.replicate (2 ^ 28) 0, .NONE⟩ : XBFile)]
        [4, 0, 0, 0, 5, 0, 0, 0] = 24 := rfl
    rw [hoff]
    simp only [specOffsetExceeds]
    rw [hsa]
    decide

end LibXB

namespace LibXB

/-- Counterexample to claim C8: closing a read-mode archive once succeeds
and nulls out the stream, but a second `close()` call on the resulting
state raises `AttributeError` instead of being a no-op. -/
theorem close_twice_counterexample :
    closeArchive ⟨['r'], some ⟨.little, [], 0⟩, []⟩ = .ok ⟨['r'], none, []⟩ ∧
      closeArchive ⟨['r'], none, []⟩ = .error .attributeError := by decide

/-- Claim C8 as amended: `close()` is not idempotent — on any archive whose
stream is already gone (and whose stored open-mode string is non-empty, as
for every constructed archive), a further `close()` raises
`AttributeError`, in every open mode. -/
theorem close_on_closed_archive_raises (st : ArchiveState)
    (hm : st.openMode ≠ []) (hs : st.strm = none) :
    closeArchive st = .error .attributeError := by
  unfold closeArchive
  rw [hs]
  cases hmode : st.openMode with
  | nil => exact absurd hmode hm
  | cons c rest =>
    dsimp only [List.head?]
    by_cases hw : c = 'w' ∨ c = 'x'
    · rw [if_pos hw]
    · rw [if_neg hw]

/-- Witness for C8's amended statement on a closed read-mode archive. -/
theorem close_on_closed_archive_raises_witness :
    closeArchive ⟨['r'], none, []⟩ = .error .attributeError :=
  close_on_closed_archive_raises ⟨['r'], none, []⟩ (by decide) rfl

end LibXB
